import Mathlib

/-!
Verification of the collaborative-canvas session synchronization engine.

The definitions below are a shallow embedding of the server-side core:
`DrawingStateManager` (src/server/drawing-state.js), `RoomManager`
(rooms.js) and the per-connection socket handlers (server.js).
JavaScript `Map`s are modelled as insertion-ordered association lists,
machine time (`Date.now()`) and the random draw of `Math.random()` are
threaded in as explicit oracle arguments, and the possibly-absent values
of JavaScript are modelled with `Option`.
-/

namespace CollabCanvas

/-- A 2-D point of a stroke. -/
structure Point where
  x : Int
  y : Int
deriving DecidableEq, Repr

/-- The payload a drawing operation carries when it is submitted to
`addOperation` (the object built in the `draw:end` handler). -/
structure OpInput where
  type : String
  userId : String
  strokeId : String
  points : List Point
  color : String
  lineWidth : Nat
  tool : String
deriving DecidableEq, Repr

/-- A committed operation: the submitted payload plus the server-assigned
`id` and `timestamp` fields added by `addOperation`. -/
structure Operation extends OpInput where
  id : String
  timestamp : Nat
deriving DecidableEq, Repr

/-- Cursor position of a participant. -/
structure Cursor where
  x : Int
  y : Int
deriving DecidableEq, Repr

/-- Presence record of a participant, as stored in a room's `users` map.
The wire record produced by `addUserToRoom` has no `joinedAt` field; it is
modelled here as the placeholder value `0`, and the stored record gets the
actual clock value in `addUser`. -/
structure UserData where
  id : String
  name : String
  color : String
  cursor : Cursor
  isDrawing : Bool
  joinedAt : Nat
deriving DecidableEq, Repr

/-! ### JavaScript `Map` as an insertion-ordered association list -/

/-- `Map.get`: first (and, for maps built with `mapSet`, only) binding. -/
def mapGet {α : Type} : List (String × α) → String → Option α
  | [], _ => none
  | (k', v') :: rest, k => if k' = k then some v' else mapGet rest k

/-- `Map.set`: replace the binding in place if the key is present,
otherwise append the new binding at the end (JS insertion order). -/
def mapSet {α : Type} : List (String × α) → String → α → List (String × α)
  | [], k, v => [(k, v)]
  | (k', v') :: rest, k, v =>
      if k' = k then (k, v) :: rest else (k', v') :: mapSet rest k v

/-- `Map.delete`: remove the binding of the key, if present. -/
def mapDelete {α : Type} : List (String × α) → String → List (String × α)
  | [], _ => []
  | (k', v') :: rest, k =>
      if k' = k then rest else (k', v') :: mapDelete rest k

/-! ### DrawingStateManager (src/server/drawing-state.js) -/

/-- Per-room session state: the ordered operation log, the history pointer
`currentIndex` (a JS number that can be `-1`, hence `Int`), and the
participant presence map. -/
structure DrawingStateManager where
  roomId : String
  operations : List Operation
  currentIndex : Int
  users : List (String × UserData)
deriving DecidableEq, Repr

namespace DrawingStateManager

/-- `new DrawingStateManager(roomId)`. -/
def mk0 (roomId : String) : DrawingStateManager :=
  { roomId := roomId, operations := [], currentIndex := -1, users := [] }

/-- The id string `` `${operation.userId}_${Date.now()}_${Math.random()}` ``.
The clock value and the random draw are oracle inputs; the random draw is
abstracted as a natural number rendered into the string. -/
def mkId (userId : String) (now : Nat) (rand : Nat) : String :=
  userId ++ "_" ++ toString now ++ "_" ++ toString rand

/-- `addOperation(operation)`: truncate the log past the pointer when
drawing after an undo, then push the operation extended with `id` and
`timestamp`, and advance the pointer. Returns the committed operation and
the new state. -/
def addOperation (s : DrawingStateManager) (operation : OpInput)
    (now : Nat) (rand : Nat) : Operation × DrawingStateManager :=
  let ops :=
    if s.currentIndex < (s.operations.length : Int) - 1 then
      s.operations.take (s.currentIndex + 1).toNat
    else
      s.operations
  let op : Operation :=
    { toOpInput := operation, id := mkId operation.userId now rand, timestamp := now }
  (op, { s with operations := ops ++ [op], currentIndex := s.currentIndex + 1 })

/-- The object returned by a successful `undo()` / `redo()`.
`operation` is an `Option` because JS indexing out of range yields
`undefined`. -/
structure HistoryResult where
  type : String
  operation : Option Operation
  currentIndex : Int
deriving DecidableEq, Repr

/-- `undo()`: `null` when the pointer is below `0`; otherwise return the
operation at the pointer and decrement the pointer. -/
def undo (s : DrawingStateManager) : Option HistoryResult × DrawingStateManager :=
  if s.currentIndex < 0 then
    (none, s)
  else
    (some { type := "undo",
            operation := s.operations.get? s.currentIndex.toNat,
            currentIndex := s.currentIndex - 1 },
     { s with currentIndex := s.currentIndex - 1 })

/-- `redo()`: `null` when the pointer is already at (or past) the last
index; otherwise increment the pointer and return the revealed operation. -/
def redo (s : DrawingStateManager) : Option HistoryResult × DrawingStateManager :=
  if s.currentIndex ≥ (s.operations.length : Int) - 1 then
    (none, s)
  else
    (some { type := "redo",
            operation := s.operations.get? (s.currentIndex + 1).toNat,
            currentIndex := s.currentIndex + 1 },
     { s with currentIndex := s.currentIndex + 1 })

/-- `getCurrentState()`: the visible operations, `operations.slice(0, currentIndex + 1)`. -/
def getCurrentState (s : DrawingStateManager) : List Operation :=
  s.operations.take (s.currentIndex + 1).toNat

/-- `addUser(userId, userData)`: store the record extended with `id` and
`joinedAt`. -/
def addUser (s : DrawingStateManager) (userId : String) (userData : UserData)
    (now : Nat) : DrawingStateManager :=
  { s with users := mapSet s.users userId { userData with id := userId, joinedAt := now } }

/-- `removeUser(userId)`. -/
def removeUser (s : DrawingStateManager) (userId : String) : DrawingStateManager :=
  { s with users := mapDelete s.users userId }

/-- `getUsers()`: the values of the `users` map, in insertion order. -/
def getUsers (s : DrawingStateManager) : List UserData :=
  s.users.map Prod.snd

/-- `getUser(userId)`. -/
def getUser (s : DrawingStateManager) (userId : String) : Option UserData :=
  mapGet s.users userId

/-- `clear()`: empty the log and reset the pointer to `-1`. -/
def clear (s : DrawingStateManager) : DrawingStateManager :=
  { s with operations := [], currentIndex := -1 }

end DrawingStateManager

/-! ### RoomManager (rooms.js) -/

/-- The fixed twelve-color palette of `RoomManager`. -/
def userColorsList : List String :=
  ["#FF6B6B", "#4ECDC4", "#45B7D1", "#FFA07A",
   "#98D8C8", "#F7DC6F", "#BB8FCE", "#85C1E2",
   "#F8B739", "#52B788", "#E63946", "#A8DADC"]

/-- The registry of rooms, the shared palette and the process-wide
rotating color index. -/
structure RoomManager where
  rooms : List (String × DrawingStateManager)
  userColors : List String
  colorIndex : Nat
deriving DecidableEq, Repr

namespace RoomManager

/-- `new RoomManager()`. -/
def mk0 : RoomManager :=
  { rooms := [], userColors := userColorsList, colorIndex := 0 }

/-- `getRoom(roomId)`. -/
def getRoom (rm : RoomManager) (roomId : String) : Option DrawingStateManager :=
  mapGet rm.rooms roomId

/-- `deleteRoom(roomId)`. -/
def deleteRoom (rm : RoomManager) (roomId : String) : RoomManager :=
  { rm with rooms := mapDelete rm.rooms roomId }

/-- Store an updated room back into the registry (the effect that in JS
happens implicitly by mutating the `DrawingStateManager` object held in
the `rooms` map). -/
def setRoom (rm : RoomManager) (roomId : String) (room : DrawingStateManager) :
    RoomManager :=
  { rm with rooms := mapSet rm.rooms roomId room }

/-- `getOrCreateRoom(roomId)`: return the existing room, or insert and
return a fresh one. -/
def getOrCreateRoom (rm : RoomManager) (roomId : String) :
    DrawingStateManager × RoomManager :=
  match mapGet rm.rooms roomId with
  | some room => (room, rm)
  | none =>
      let room := DrawingStateManager.mk0 roomId
      (room, { rm with rooms := mapSet rm.rooms roomId room })

/-- `addUserToRoom(roomId, userId, userName)`: create the room if absent,
draw the next palette color from the process-wide rotating index, build
the presence record (JS falsy fallback for the name: `undefined` or the
empty string yields the derived default), register it, and return it. -/
def addUserToRoom (rm : RoomManager) (roomId : String) (userId : String)
    (userName : Option String) (now : Nat) : UserData × RoomManager :=
  let res := rm.getOrCreateRoom roomId
  let room := res.1
  let rm1 := res.2
  let color := (rm1.userColors.get? (rm1.colorIndex % rm1.userColors.length)).getD ""
  let rm2 := { rm1 with colorIndex := rm1.colorIndex + 1 }
  let name :=
    match userName with
    | some n => if n = "" then "User " ++ userId.take 6 else n
    | none => "User " ++ userId.take 6
  let userData : UserData :=
    { id := userId, name := name, color := color,
      cursor := { x := 0, y := 0 }, isDrawing := false, joinedAt := 0 }
  (userData, rm2.setRoom roomId (room.addUser userId userData now))

/-- `removeUserFromRoom(roomId, userId)`: remove the participant and
delete the room when its participant set becomes empty. -/
def removeUserFromRoom (rm : RoomManager) (roomId : String) (userId : String) :
    RoomManager :=
  match mapGet rm.rooms roomId with
  | none => rm
  | some room =>
      let room' := room.removeUser userId
      if room'.getUsers.length = 0 then
        rm.deleteRoom roomId
      else
        rm.setRoom roomId room'

/-- `updateUserCursor(roomId, userId, cursor, isDrawing)`: no-op when the
room or the user is unknown. -/
def updateUserCursor (rm : RoomManager) (roomId : String) (userId : String)
    (cursor : Cursor) (isDrawing : Bool) : RoomManager :=
  match mapGet rm.rooms roomId with
  | none => rm
  | some room =>
      match mapGet room.users userId with
      | none => rm
      | some user =>
          rm.setRoom roomId
            { room with
              users := mapSet room.users userId
                { user with cursor := cursor, isDrawing := isDrawing } }

end RoomManager

/-! ### Connection handlers (server.js) -/

/-- A message emitted by a handler. `undoMsg`/`redoMsg`/`drawFinalMsg` are
broadcast to the whole room including the sender (`io.to(room).emit`),
`drawAppendMsg` goes to the other participants (`socket.to(room).emit`),
and `errorMsg` is sent to the requesting connection only. -/
inductive ServerMsg
  | undoMsg (result : DrawingStateManager.HistoryResult)
  | redoMsg (result : DrawingStateManager.HistoryResult)
  | clearMsg
  | drawAppendMsg (strokeId : String) (points : List Point)
  | drawFinalMsg (operation : Operation)
  | errorMsg (message : String)
deriving DecidableEq, Repr

/-- The `socket.on('undo')` handler: look the room up (silent no-op when
absent), run `undo`, and broadcast the result only when it is non-null. -/
def handleUndo (rm : RoomManager) (currentRoom : String) :
    RoomManager × List ServerMsg :=
  match rm.getRoom currentRoom with
  | none => (rm, [])
  | some room =>
      let res := room.undo
      let rm' := rm.setRoom currentRoom res.2
      match res.1 with
      | none => (rm', [])
      | some r => (rm', [ServerMsg.undoMsg r])

/-- The `socket.on('redo')` handler, symmetric to `handleUndo`. -/
def handleRedo (rm : RoomManager) (currentRoom : String) :
    RoomManager × List ServerMsg :=
  match rm.getRoom currentRoom with
  | none => (rm, [])
  | some room =>
      let res := room.redo
      let rm' := rm.setRoom currentRoom res.2
      match res.1 with
      | none => (rm', [])
      | some r => (rm', [ServerMsg.redoMsg r])

/-- An in-flight stroke buffer held in a connection's `inflightStrokes`
map. -/
structure StrokeBuffer where
  color : String
  lineWidth : Nat
  tool : String
  points : List Point
deriving DecidableEq, Repr

/-- The `points` field of a `draw:append` payload as it may arrive over
the wire: missing (`undefined`), present but not an array, or an array of
points. -/
inductive PointsPayload
  | undef
  | nonArray
  | arr (points : List Point)
deriving DecidableEq, Repr

/-- The `socket.on('draw:append')` handler: ignore unknown stroke ids;
extend the buffer and rebroadcast only when `Array.isArray(points) &&
points.length` holds. -/
def handleDrawAppend (inflight : List (String × StrokeBuffer)) (strokeId : String)
    (points : PointsPayload) : List (String × StrokeBuffer) × List ServerMsg :=
  match mapGet inflight strokeId with
  | none => (inflight, [])
  | some s =>
      match points with
      | PointsPayload.arr ps =>
          if ps.length ≠ 0 then
            (mapSet inflight strokeId { s with points := s.points ++ ps },
             [ServerMsg.drawAppendMsg strokeId ps])
          else
            (inflight, [])
      | _ => (inflight, [])

/-! ### Event models

`HistEvent` ranges over the four history-mutating calls a room's
`DrawingStateManager` can receive; `ServerEvent` ranges over the registry
mutations the socket handlers perform on the `RoomManager`. Oracle values
(clock, random draw) travel inside the events. -/

/-- One history-mutating call on a room. -/
inductive HistEvent
  | append (input : OpInput) (now : Nat) (rand : Nat)
  | undoE
  | redoE
  | clearE
deriving DecidableEq, Repr

/-- Apply one history event to a room (results are discarded; only the
state transition matters here). -/
def histStep (s : DrawingStateManager) : HistEvent → DrawingStateManager
  | HistEvent.append input now rand => (s.addOperation input now rand).2
  | HistEvent.undoE => s.undo.2
  | HistEvent.redoE => s.redo.2
  | HistEvent.clearE => s.clear

/-- Run a sequence of history events. -/
def histRun (s : DrawingStateManager) (evs : List HistEvent) : DrawingStateManager :=
  evs.foldl histStep s

/-- The id strings `addOperation` generates at the append events of a run,
in order. -/
def appendIds : List HistEvent → List String
  | [] => []
  | HistEvent.append input now rand :: es =>
      DrawingStateManager.mkId input.userId now rand :: appendIds es
  | _ :: es => appendIds es

/-- One registry-mutating client intent, as dispatched by the connection
handlers: `join` is `join-room`, `leave` is the `disconnect` cleanup for a
connection whose current room is `roomId`, `drawEnd` is `draw:end` with
the given finalized stroke buffer, and the rest are the room-wide edit
requests. -/
inductive ServerEvent
  | join (roomId : String) (userId : String) (userName : Option String) (now : Nat)
  | leave (roomId : String) (userId : String)
  | drawEnd (roomId : String) (userId : String) (strokeId : String)
      (buf : StrokeBuffer) (now : Nat) (rand : Nat)
  | undoReq (roomId : String)
  | redoReq (roomId : String)
  | clearReq (roomId : String)
  | cursorMove (roomId : String) (userId : String) (c : Cursor) (isDrawing : Bool)
deriving DecidableEq, Repr

/-- The `socket.on('draw:end')` commit of a finalized buffer: silent no-op
when the room is unknown, otherwise `addOperation` on the room. -/
def handleDrawEnd (rm : RoomManager) (roomId : String) (userId : String)
    (strokeId : String) (buf : StrokeBuffer) (now : Nat) (rand : Nat) : RoomManager :=
  match rm.getRoom roomId with
  | none => rm
  | some room =>
      rm.setRoom roomId
        (room.addOperation
          { type := "draw", userId := userId, strokeId := strokeId,
            points := buf.points, color := buf.color,
            lineWidth := buf.lineWidth, tool := buf.tool } now rand).2

/-- The `socket.on('clear-canvas')` handler: silent no-op when the room is
unknown, otherwise `clear` the room. -/
def handleClear (rm : RoomManager) (roomId : String) : RoomManager :=
  match rm.getRoom roomId with
  | none => rm
  | some room => rm.setRoom roomId room.clear

/-- Apply one server event to the registry. -/
def serverStep (rm : RoomManager) : ServerEvent → RoomManager
  | ServerEvent.join roomId userId userName now =>
      (rm.addUserToRoom roomId userId userName now).2
  | ServerEvent.leave roomId userId => rm.removeUserFromRoom roomId userId
  | ServerEvent.drawEnd roomId userId strokeId buf now rand =>
      handleDrawEnd rm roomId userId strokeId buf now rand
  | ServerEvent.undoReq roomId => (handleUndo rm roomId).1
  | ServerEvent.redoReq roomId => (handleRedo rm roomId).1
  | ServerEvent.clearReq roomId => handleClear rm roomId
  | ServerEvent.cursorMove roomId userId c isDrawing =>
      rm.updateUserCursor roomId userId c isDrawing

/-- Run a sequence of server events on the registry. -/
def serverRun (rm : RoomManager) (evs : List ServerEvent) : RoomManager :=
  evs.foldl serverStep rm

/-- The color `addUserToRoom` draws in a given registry state. -/
def assignedColor (rm : RoomManager) : String :=
  (rm.userColors.get? (rm.colorIndex % rm.userColors.length)).getD ""

/-- The colors assigned at the join events of a run, in order. -/
def joinColors : RoomManager → List ServerEvent → List String
  | _, [] => []
  | rm, e :: es =>
      (match e with
       | ServerEvent.join _ _ _ _ => [assignedColor rm]
       | _ => []) ++ joinColors (serverStep rm e) es

/-! ### Association-map lemmas -/

theorem mapGet_mapSet_self {α : Type} (m : List (String × α)) (k : String) (v : α) :
    mapGet (mapSet m k v) k = some v := by
  induction m with
  | nil => simp [mapSet, mapGet]
  | cons hd tl ih =>
      obtain ⟨k', v'⟩ := hd
      by_cases h : k' = k <;> simp [mapSet, mapGet, h, ih]

theorem mapSet_mapSet {α : Type} (m : List (String × α)) (k : String) (v w : α) :
    mapSet (mapSet m k v) k w = mapSet m k w := by
  induction m with
  | nil => simp [mapSet]
  | cons hd tl ih =>
      obtain ⟨k', v'⟩ := hd
      by_cases h : k' = k <;> simp [mapSet, h, ih]

theorem mapSet_of_mapGet_eq {α : Type} (m : List (String × α)) (k : String) (v : α)
    (h : mapGet m k = some v) : mapSet m k v = m := by
  induction m with
  | nil => simp [mapGet] at h
  | cons hd tl ih =>
      obtain ⟨k', v'⟩ := hd
      by_cases hk : k' = k
      · simp [mapGet, hk] at h
        simp [mapSet, hk, h]
      · simp [mapGet, hk] at h
        simp [mapSet, hk, ih h]

theorem mapDelete_mapSet_of_mapGet_none {α : Type} (m : List (String × α))
    (k : String) (v : α) (h : mapGet m k = none) :
    mapDelete (mapSet m k v) k = m := by
  induction m with
  | nil => simp [mapSet, mapDelete]
  | cons hd tl ih =>
      obtain ⟨k', v'⟩ := hd
      by_cases hk : k' = k
      · simp [mapGet, hk] at h
      · simp [mapGet, hk] at h
        simp [mapSet, mapDelete, hk, ih h]

theorem mem_mapSet {α : Type} (m : List (String × α)) (k : String) (v : α)
    (p : String × α) (hp : p ∈ mapSet m k v) : p ∈ m ∨ p = (k, v) := by
  induction m with
  | nil =>
      simp [mapSet] at hp
      exact Or.inr hp
  | cons hd tl ih =>
      obtain ⟨k', v'⟩ := hd
      by_cases hk : k' = k
      · simp [mapSet, hk] at hp
        rcases hp with h | h
        · exact Or.inr h
        · exact Or.inl (List.mem_cons_of_mem _ h)
      · simp [mapSet, hk] at hp
        rcases hp with h | h
        · exact Or.inl (by simp [h])
        · rcases ih h with h' | h'
          · exact Or.inl (List.mem_cons_of_mem _ h')
          · exact Or.inr h'

theorem mem_mapDelete {α : Type} (m : List (String × α)) (k : String)
    (p : String × α) (hp : p ∈ mapDelete m k) : p ∈ m := by
  induction m with
  | nil => simp [mapDelete] at hp
  | cons hd tl ih =>
      obtain ⟨k', v'⟩ := hd
      by_cases hk : k' = k
      · simp [mapDelete, hk] at hp
        exact List.mem_cons_of_mem _ hp
      · simp [mapDelete, hk] at hp
        rcases hp with h | h
        · exact h ▸ List.mem_cons_self _ _
        · exact List.mem_cons_of_mem _ (ih h)

theorem mapGet_mem {α : Type} (m : List (String × α)) (k : String) (v : α)
    (h : mapGet m k = some v) : (k, v) ∈ m := by
  induction m with
  | nil => simp [mapGet] at h
  | cons hd tl ih =>
      obtain ⟨k', v'⟩ := hd
      by_cases hk : k' = k
      · simp [mapGet, hk] at h
        simp [hk, h]
      · simp [mapGet, hk] at h
        exact List.mem_cons_of_mem _ (ih h)

theorem mapSet_ne_nil {α : Type} (m : List (String × α)) (k : String) (v : α) :
    mapSet m k v ≠ [] := by
  cases m with
  | nil => simp [mapSet]
  | cons hd tl =>
      obtain ⟨k', v'⟩ := hd
      by_cases hk : k' = k <;> simp [mapSet, hk]

/-! ### History pointer bounds (claim C1) -/

/-- The bounds the spec states for the history pointer. -/
def PointerInBounds (s : DrawingStateManager) : Prop :=
  -1 ≤ s.currentIndex ∧ s.currentIndex ≤ (s.operations.length : Int) - 1

theorem pointerInBounds_addOperation (s : DrawingStateManager) (input : OpInput)
    (now rand : Nat) (h : PointerInBounds s) :
    PointerInBounds (s.addOperation input now rand).2 := by
  obtain ⟨h1, h2⟩ := h
  by_cases hc : s.currentIndex < (s.operations.length : Int) - 1 <;>
    simp [DrawingStateManager.addOperation, PointerInBounds, hc] <;> omega

theorem pointerInBounds_undo (s : DrawingStateManager) (h : PointerInBounds s) :
    PointerInBounds s.undo.2 := by
  obtain ⟨h1, h2⟩ := h
  by_cases hc : s.currentIndex < 0 <;>
    simp [DrawingStateManager.undo, PointerInBounds, hc] <;> omega

theorem pointerInBounds_redo (s : DrawingStateManager) (h : PointerInBounds s) :
    PointerInBounds s.redo.2 := by
  obtain ⟨h1, h2⟩ := h
  by_cases hc : s.currentIndex ≥ (s.operations.length : Int) - 1 <;>
    simp [DrawingStateManager.redo, PointerInBounds, hc] <;> omega

theorem pointerInBounds_clear (s : DrawingStateManager) :
    PointerInBounds s.clear := by
  simp [DrawingStateManager.clear, PointerInBounds]

theorem pointerInBounds_histRun (s : DrawingStateManager) (evs : List HistEvent)
    (h : PointerInBounds s) : PointerInBounds (histRun s evs) := by
  induction evs generalizing s with
  | nil => exact h
  | cons e es ih =>
      have hstep : PointerInBounds (histStep s e) := by
        cases e with
        | append input now rand => exact pointerInBounds_addOperation s input now rand h
        | undoE => exact pointerInBounds_undo s h
        | redoE => exact pointerInBounds_redo s h
        | clearE => exact pointerInBounds_clear s
      exact ih (histStep s e) hstep

/-- C1: for every sequence of append, undo, redo and clear operations
applied to a freshly created room history, the pointer `p` satisfies
`-1 <= p <= len(log) - 1`. -/
theorem history_pointer_always_in_bounds (roomId : String) (evs : List HistEvent) :
    -1 ≤ (histRun (DrawingStateManager.mk0 roomId) evs).currentIndex ∧
    (histRun (DrawingStateManager.mk0 roomId) evs).currentIndex ≤
      ((histRun (DrawingStateManager.mk0 roomId) evs).operations.length : Int) - 1 :=
  pointerInBounds_histRun (DrawingStateManager.mk0 roomId) evs
    (by simp [DrawingStateManager.mk0, PointerInBounds])

/-! ### Append truncation (claim C2) -/

/-- C2: when the pointer is strictly below the last log index, appending
first discards every operation with index above the pointer, then appends
the new operation, leaves the pointer at the new last index, and returns
the committed operation carrying the generated id and the timestamp. -/
theorem addOperation_truncates_after_undo (s : DrawingStateManager) (input : OpInput)
    (now rand : Nat) (h1 : -1 ≤ s.currentIndex)
    (h2 : s.currentIndex < (s.operations.length : Int) - 1) :
    (s.addOperation input now rand).2.operations =
        s.operations.take (s.currentIndex + 1).toNat ++ [(s.addOperation input now rand).1]
    ∧ (s.addOperation input now rand).2.currentIndex =
        ((s.addOperation input now rand).2.operations.length : Int) - 1
    ∧ (s.addOperation input now rand).1.id = DrawingStateManager.mkId input.userId now rand
    ∧ (s.addOperation input now rand).1.timestamp = now := by
  refine ⟨?_, ?_, ?_, ?_⟩
  · simp [DrawingStateManager.addOperation, h2]
  · simp [DrawingStateManager.addOperation, h2]
    omega
  · simp [DrawingStateManager.addOperation]
  · simp [DrawingStateManager.addOperation]

/-- A concrete committed operation, for the spec's `[A,B,C,D]` scenario. -/
def opA : Operation :=
  { type := "draw", userId := "ua", strokeId := "sa", points := [],
    color := "#000000", lineWidth := 2, tool := "brush", id := "ua_1_1", timestamp := 1 }

def opB : Operation :=
  { opA with userId := "ub", strokeId := "sb", id := "ub_2_2", timestamp := 2 }

def opC : Operation :=
  { opA with userId := "uc", strokeId := "sc", id := "uc_3_3", timestamp := 3 }

def opD : Operation :=
  { opA with userId := "ud", strokeId := "sd", id := "ud_4_4", timestamp := 4 }

/-- The room state with log `[A,B,C,D]` and pointer `1` (after two undos). -/
def sABCD : DrawingStateManager :=
  { roomId := "r", operations := [opA, opB, opC, opD], currentIndex := 1, users := [] }

/-- The submitted payload of the new operation `E`. -/
def inputE : OpInput :=
  { type := "draw", userId := "ue", strokeId := "se", points := [],
    color := "#111111", lineWidth := 3, tool := "brush" }

/-- Witness for C2, at the spec's concrete scenario: log `[A,B,C,D]`,
pointer `1`, append `E` gives log `[A, B, E]` with pointer `2`. -/
theorem addOperation_truncates_after_undo_witness :
    ((sABCD.addOperation inputE 9 4).2.operations =
        [opA, opB, (sABCD.addOperation inputE 9 4).1]
      ∧ (sABCD.addOperation inputE 9 4).2.currentIndex = 2)
    ∧ ((sABCD.addOperation inputE 9 4).2.operations =
        sABCD.operations.take (sABCD.currentIndex + 1).toNat
          ++ [(sABCD.addOperation inputE 9 4).1]
      ∧ (sABCD.addOperation inputE 9 4).2.currentIndex =
          ((sABCD.addOperation inputE 9 4).2.operations.length : Int) - 1
      ∧ (sABCD.addOperation inputE 9 4).1.id =
          DrawingStateManager.mkId inputE.userId 9 4
      ∧ (sABCD.addOperation inputE 9 4).1.timestamp = 9) :=
  ⟨⟨by decide, by decide⟩,
   addOperation_truncates_after_undo sABCD inputE 9 4 (by decide) (by decide)⟩

/-! ### Undo contract (claim C3) -/

/-- C3: under the pointer bounds, `undo` returns none exactly when the
pointer is `-1`; otherwise it returns the operation at the pointer with
the decremented pointer, decrements the pointer by exactly one, and leaves
the stored log unchanged (the returned operation stays in storage). -/
theorem undo_none_iff_pointer_neg_one (s : DrawingStateManager)
    (h1 : -1 ≤ s.currentIndex)
    (h2 : s.currentIndex ≤ (s.operations.length : Int) - 1) :
    (s.undo.1 = none ↔ s.currentIndex = -1)
    ∧ s.undo.2.operations = s.operations
    ∧ (s.currentIndex ≠ -1 →
        s.undo.2.currentIndex = s.currentIndex - 1
        ∧ ∃ op, s.operations.get? s.currentIndex.toNat = some op
            ∧ s.undo.1 = some { type := "undo", operation := some op,
                                currentIndex := s.currentIndex - 1 }
            ∧ op ∈ s.undo.2.operations) := by
  by_cases hc : s.currentIndex < 0
  · have heq : s.currentIndex = -1 := by omega
    simp [DrawingStateManager.undo, hc, heq]
  · have hne : s.currentIndex ≠ -1 := by omega
    have hlt : s.currentIndex.toNat < s.operations.length := by omega
    have hop : s.operations.get? s.currentIndex.toNat =
        some (s.operations.get ⟨s.currentIndex.toNat, hlt⟩) := List.get?_eq_get hlt
    refine ⟨by simp [DrawingStateManager.undo, hc, hne], by simp [DrawingStateManager.undo, hc],
      fun _ => ⟨by simp [DrawingStateManager.undo, hc], ?_⟩⟩
    refine ⟨s.operations.get ⟨s.currentIndex.toNat, hlt⟩, hop, ?_, ?_⟩
    · simp [DrawingStateManager.undo, hc, hop]
    · simp only [DrawingStateManager.undo, hc, if_neg hc]
      exact List.get_mem _ _ _

/-- Witness for C3 at a one-operation room with pointer `0`. -/
theorem undo_none_iff_pointer_neg_one_witness :
    ((DrawingStateManager.mk0 "r").addOperation inputE 9 4).2.undo.1 ≠ none ∧
    ((DrawingStateManager.mk0 "r").addOperation inputE 9 4).2.undo.2.operations =
      ((DrawingStateManager.mk0 "r").addOperation inputE 9 4).2.operations := by
  have h := undo_none_iff_pointer_neg_one
    ((DrawingStateManager.mk0 "r").addOperation inputE 9 4).2 (by decide) (by decide)
  refine ⟨fun hnone => ?_, h.2.1⟩
  exact absurd (h.1.1 hnone) (by decide)

/-! ### Undo-redo roundtrip (claim C4) -/

/-- C4: whenever `undo` succeeds (pointer above `-1`), an immediate `redo`
restores exactly the visible-operations sequence from before the undo. -/
theorem undo_redo_roundtrip (s : DrawingStateManager) (h : 0 ≤ s.currentIndex) :
    s.undo.2.redo.2.getCurrentState = s.getCurrentState := by
  have hc : ¬ s.currentIndex < 0 := by omega
  by_cases hr : s.currentIndex - 1 ≥ (s.operations.length : Int) - 1
  · simp [DrawingStateManager.undo, hc, DrawingStateManager.redo, hr,
          DrawingStateManager.getCurrentState]
    omega
  · simp [DrawingStateManager.undo, hc, DrawingStateManager.redo, hr,
          DrawingStateManager.getCurrentState]

/-- Witness for C4 at a one-operation room with pointer `0`. -/
theorem undo_redo_roundtrip_witness :
    ((DrawingStateManager.mk0 "r").addOperation inputE 9 4).2.undo.2.redo.2.getCurrentState =
      ((DrawingStateManager.mk0 "r").addOperation inputE 9 4).2.getCurrentState :=
  undo_redo_roundtrip ((DrawingStateManager.mk0 "r").addOperation inputE 9 4).2 (by decide)

/-! ### Clear (claim C6) -/

/-- C6: after `clear()` the log is empty, the pointer is `-1`, the visible
sequence is empty, and an immediately subsequent `undo()` returns none
(leaving the cleared state unchanged). -/
theorem clear_resets_history (s : DrawingStateManager) :
    s.clear.operations = [] ∧ s.clear.currentIndex = -1
    ∧ s.clear.getCurrentState = [] ∧ s.clear.undo.1 = none
    ∧ s.clear.undo.2 = s.clear := by
  refine ⟨rfl, rfl, ?_, ?_, ?_⟩
  · simp [DrawingStateManager.clear, DrawingStateManager.getCurrentState]
  · simp [DrawingStateManager.clear, DrawingStateManager.undo]
  · simp [DrawingStateManager.clear, DrawingStateManager.undo]

/-! ### Redo boundary and silent no-op handlers (claim C5) -/

/-- C5: under the pointer bounds, `redo` returns none exactly when the
pointer is at the last log index; and a failed undo or redo request makes
the handler emit no message at all (no broadcast, no error) and leave the
registry unchanged. -/
theorem redo_none_iff_at_last_and_silent (rm : RoomManager) (roomId : String)
    (room : DrawingStateManager)
    (hroom : rm.getRoom roomId = some room)
    (h1 : -1 ≤ room.currentIndex)
    (h2 : room.currentIndex ≤ (room.operations.length : Int) - 1) :
    (room.redo.1 = none ↔ room.currentIndex = (room.operations.length : Int) - 1)
    ∧ (room.undo.1 = none → handleUndo rm roomId = (rm, []))
    ∧ (room.redo.1 = none → handleRedo rm roomId = (rm, [])) := by
  have hget : mapGet rm.rooms roomId = some room := hroom
  have hset : rm.setRoom roomId room = rm := by
    simp [RoomManager.setRoom, mapSet_of_mapGet_eq rm.rooms roomId room hget]
  refine ⟨?_, fun hu => ?_, fun hr => ?_⟩
  · by_cases hc : room.currentIndex ≥ (room.operations.length : Int) - 1
    · simp [DrawingStateManager.redo, hc]
      omega
    · simp [DrawingStateManager.redo, hc]
      omega
  · have hneg : room.currentIndex < 0 := by
      by_contra hpos
      simp [DrawingStateManager.undo, hpos] at hu
    have hu2 : room.undo.2 = room := by
      simp [DrawingStateManager.undo, hneg]
    simp [handleUndo, hroom, hu, hu2, hset]
  · have hge : room.currentIndex ≥ (room.operations.length : Int) - 1 := by
      by_contra hlt
      simp [DrawingStateManager.redo, hlt] at hr
    have hr2 : room.redo.2 = room := by
      simp [DrawingStateManager.redo, hge]
    simp [handleRedo, hroom, hr, hr2, hset]

/-- A concrete one-user registry: user `u` joined room `r`; the room's
history is empty, so both undo and redo are at their boundary. -/
def rmW : RoomManager := (RoomManager.mk0.addUserToRoom "r" "u" (some "Alice") 0).2

/-- The room stored in `rmW` under `"r"`. -/
def roomW : DrawingStateManager := ((rmW.getRoom "r").getD (DrawingStateManager.mk0 "x"))

/-- Witness for C5: in `rmW` both undo and redo fail and both handlers
return the unchanged registry with no messages. -/
theorem redo_none_iff_at_last_and_silent_witness :
    roomW.redo.1 = none ∧ handleUndo rmW "r" = (rmW, [])
    ∧ handleRedo rmW "r" = (rmW, []) := by
  have h := redo_none_iff_at_last_and_silent rmW "r" roomW (by decide) (by decide) (by decide)
  have hredo : roomW.redo.1 = none := by decide
  exact ⟨hredo, h.2.1 (by decide), h.2.2 hredo⟩

/-! ### No empty room in the registry (claim C7) -/

/-- Every room present in the registry has a nonempty participant map. -/
def NoEmptyRoom (rm : RoomManager) : Prop :=
  ∀ p ∈ rm.rooms, (p.2).users ≠ []

theorem noEmptyRoom_addUserToRoom (rm : RoomManager) (roomId userId : String)
    (userName : Option String) (now : Nat) (h : NoEmptyRoom rm) :
    NoEmptyRoom (rm.addUserToRoom roomId userId userName now).2 := by
  intro p hp
  cases hget : mapGet rm.rooms roomId with
  | none =>
      simp only [RoomManager.addUserToRoom, RoomManager.getOrCreateRoom, hget,
                 RoomManager.setRoom, mapSet_mapSet] at hp
      rcases mem_mapSet _ _ _ p hp with h' | h'
      · exact h p h'
      · rw [h']
        exact mapSet_ne_nil _ _ _
  | some room =>
      simp only [RoomManager.addUserToRoom, RoomManager.getOrCreateRoom, hget,
                 RoomManager.setRoom] at hp
      rcases mem_mapSet _ _ _ p hp with h' | h'
      · exact h p h'
      · rw [h']
        exact mapSet_ne_nil _ _ _

theorem noEmptyRoom_removeUserFromRoom (rm : RoomManager) (roomId userId : String)
    (h : NoEmptyRoom rm) :
    NoEmptyRoom (rm.removeUserFromRoom roomId userId) := by
  intro p hp
  cases hget : mapGet rm.rooms roomId with
  | none =>
      simp only [RoomManager.removeUserFromRoom, hget] at hp
      exact h p hp
  | some room =>
      simp only [RoomManager.removeUserFromRoom, hget] at hp
      by_cases hlen : ((room.removeUser userId).getUsers).length = 0
      · simp only [hlen, if_pos rfl, RoomManager.deleteRoom] at hp
        exact h p (mem_mapDelete _ _ _ hp)
      · simp only [hlen, if_neg hlen, RoomManager.setRoom] at hp
        rcases mem_mapSet _ _ _ p hp with h' | h'
        · exact h p h'
        · rw [h']
          show (room.removeUser userId).users ≠ []
          intro hnil
          exact hlen (by simp [DrawingStateManager.getUsers, hnil])

theorem undo_preserves_users (s : DrawingStateManager) : s.undo.2.users = s.users := by
  by_cases hc : s.currentIndex < 0 <;> simp [DrawingStateManager.undo, hc]

theorem redo_preserves_users (s : DrawingStateManager) : s.redo.2.users = s.users := by
  by_cases hc : s.currentIndex ≥ (s.operations.length : Int) - 1 <;>
    simp [DrawingStateManager.redo, hc]

/-- Updating a room in place with a room whose participant map is the same
or nonempty preserves the invariant. -/
theorem noEmptyRoom_setRoom (rm : RoomManager) (roomId : String)
    (room : DrawingStateManager) (h : NoEmptyRoom rm) (husers : room.users ≠ []) :
    NoEmptyRoom (rm.setRoom roomId room) := by
  intro p hp
  rcases mem_mapSet _ _ _ p (by simpa [RoomManager.setRoom] using hp) with h' | h'
  · exact h p h'
  · rw [h']
    exact husers

theorem noEmptyRoom_serverStep (rm : RoomManager) (e : ServerEvent)
    (h : NoEmptyRoom rm) : NoEmptyRoom (serverStep rm e) := by
  cases e with
  | join roomId userId userName now =>
      exact noEmptyRoom_addUserToRoom rm roomId userId userName now h
  | leave roomId userId =>
      exact noEmptyRoom_removeUserFromRoom rm roomId userId h
  | drawEnd roomId userId strokeId buf now rand =>
      cases hget : rm.getRoom roomId with
      | none => simpa [serverStep, handleDrawEnd, hget] using h
      | some room =>
          have hmem : (roomId, room) ∈ rm.rooms := mapGet_mem _ _ _ hget
          have husers : room.users ≠ [] := h _ hmem
          simp only [serverStep, handleDrawEnd, hget]
          exact noEmptyRoom_setRoom rm roomId _ h husers
  | undoReq roomId =>
      cases hget : rm.getRoom roomId with
      | none => simpa [serverStep, handleUndo, hget] using h
      | some room =>
          have hmem : (roomId, room) ∈ rm.rooms := mapGet_mem _ _ _ hget
          have husers : room.users ≠ [] := h _ hmem
          have hrm : (handleUndo rm roomId).1 = rm.setRoom roomId room.undo.2 := by
            cases hres : room.undo.1 <;> simp [handleUndo, hget, hres]
          simp only [serverStep, hrm]
          exact noEmptyRoom_setRoom rm roomId _ h
            (by rw [undo_preserves_users]; exact husers)
  | redoReq roomId =>
      cases hget : rm.getRoom roomId with
      | none => simpa [serverStep, handleRedo, hget] using h
      | some room =>
          have hmem : (roomId, room) ∈ rm.rooms := mapGet_mem _ _ _ hget
          have husers : room.users ≠ [] := h _ hmem
          have hrm : (handleRedo rm roomId).1 = rm.setRoom roomId room.redo.2 := by
            cases hres : room.redo.1 <;> simp [handleRedo, hget, hres]
          simp only [serverStep, hrm]
          exact noEmptyRoom_setRoom rm roomId _ h
            (by rw [redo_preserves_users]; exact husers)
  | clearReq roomId =>
      cases hget : rm.getRoom roomId with
      | none => simpa [serverStep, handleClear, hget] using h
      | some room =>
          have hmem : (roomId, room) ∈ rm.rooms := mapGet_mem _ _ _ hget
          have husers : room.users ≠ [] := h _ hmem
          simp only [serverStep, handleClear, hget]
          exact noEmptyRoom_setRoom rm roomId _ h husers
  | cursorMove roomId userId c isDrawing =>
      cases hget : mapGet rm.rooms roomId with
      | none => simpa [serverStep, RoomManager.updateUserCursor, hget] using h
      | some room =>
          cases huser : mapGet room.users userId with
          | none => simpa [serverStep, RoomManager.updateUserCursor, hget, huser] using h
          | some user =>
              simp only [serverStep, RoomManager.updateUserCursor, hget, huser]
              exact noEmptyRoom_setRoom rm roomId _ h (mapSet_ne_nil _ _ _)

theorem noEmptyRoom_serverRun (rm : RoomManager) (evs : List ServerEvent)
    (h : NoEmptyRoom rm) : NoEmptyRoom (serverRun rm evs) := by
  induction evs generalizing rm with
  | nil => exact h
  | cons e es ih => exact ih (serverStep rm e) (noEmptyRoom_serverStep rm e h)

/-- A join to an absent room followed by the same participant leaving
deletes the room again. -/
theorem join_then_leave_removes_room (rm : RoomManager) (roomId userId : String)
    (userName : Option String) (now : Nat) (h : rm.getRoom roomId = none) :
    (((rm.addUserToRoom roomId userId userName now).2.removeUserFromRoom roomId
        userId).getRoom roomId) = none := by
  have hget : mapGet rm.rooms roomId = none := h
  simp only [RoomManager.addUserToRoom, RoomManager.getOrCreateRoom, hget,
             RoomManager.setRoom, mapSet_mapSet]
  simp [RoomManager.removeUserFromRoom, mapGet_mapSet_self,
        DrawingStateManager.addUser, DrawingStateManager.removeUser,
        DrawingStateManager.getUsers, DrawingStateManager.mk0, mapSet, mapDelete,
        RoomManager.deleteRoom, RoomManager.getRoom,
        mapDelete_mapSet_of_mapGet_none _ _ _ hget, hget]

/-- C7: every registry state reachable from the fresh registry contains no
room with an empty participant set, and a join to an absent room id
immediately followed by that participant leaving leaves the registry with
no entry for that room id. -/
theorem registry_never_holds_empty_room (evs : List ServerEvent)
    (roomId userId : String) (userName : Option String) (now : Nat)
    (h : (serverRun RoomManager.mk0 evs).getRoom roomId = none) :
    NoEmptyRoom (serverRun RoomManager.mk0 evs)
    ∧ ((((serverRun RoomManager.mk0 evs).addUserToRoom roomId userId userName
          now).2.removeUserFromRoom roomId userId).getRoom roomId) = none := by
  refine ⟨noEmptyRoom_serverRun RoomManager.mk0 evs ?_, ?_⟩
  · intro p hp
    simp [RoomManager.mk0] at hp
  · exact join_then_leave_removes_room _ roomId userId userName now h

/-- Witness for C7: the empty run, then user `u` joins and leaves room `r`. -/
theorem registry_never_holds_empty_room_witness :
    NoEmptyRoom (serverRun RoomManager.mk0 [])
    ∧ ((((serverRun RoomManager.mk0 []).addUserToRoom "r" "u" (some "Alice")
          0).2.removeUserFromRoom "r" "u").getRoom "r") = none :=
  registry_never_holds_empty_room [] "r" "u" (some "Alice") 0 (by decide)

/-! ### Operation id uniqueness (claim C8) -/

theorem undo_preserves_operations (s : DrawingStateManager) :
    s.undo.2.operations = s.operations := by
  by_cases hc : s.currentIndex < 0 <;> simp [DrawingStateManager.undo, hc]

theorem redo_preserves_operations (s : DrawingStateManager) :
    s.redo.2.operations = s.operations := by
  by_cases hc : s.currentIndex ≥ (s.operations.length : Int) - 1 <;>
    simp [DrawingStateManager.redo, hc]

def opIn1 : OpInput :=
  { type := "draw", userId := "u", strokeId := "s1", points := [],
    color := "#222222", lineWidth := 2, tool := "brush" }

def opIn2 : OpInput :=
  { opIn1 with strokeId := "s2" }

/-- The first commit of the collision scenario: clock `5`, random draw `7`. -/
def c8commit1 : Operation × DrawingStateManager :=
  (DrawingStateManager.mk0 "r").addOperation opIn1 5 7

/-- The second commit, distinct payload but identical clock value and
identical random draw. -/
def c8commit2 : Operation × DrawingStateManager :=
  c8commit1.2.addOperation opIn2 5 7

/-- Counterexample to C8 as stated: two distinct operations committed via
`addOperation` in the same room receive identical ids when the clock and
the random draw coincide, since the id is derived only from
`userId`, `Date.now()` and `Math.random()`. -/
theorem operation_id_collision :
    c8commit2.2.operations = [c8commit1.1, c8commit2.1]
    ∧ c8commit1.1 ≠ c8commit2.1
    ∧ c8commit1.1.id = c8commit2.1.id := by
  refine ⟨by decide, by decide, by decide⟩

/-- Committed ids form a subsequence of the ids generated at the appends
processed so far. -/
theorem histRun_ids_sublist (evs : List HistEvent) (s : DrawingStateManager)
    (l : List String) (h : (s.operations.map Operation.id).Sublist l) :
    ((histRun s evs).operations.map Operation.id).Sublist (l ++ appendIds evs) := by
  induction evs generalizing s l with
  | nil => simpa [histRun, appendIds] using h
  | cons e es ih =>
      have hrun : histRun s (e :: es) = histRun (histStep s e) es := rfl
      rw [hrun]
      cases e with
      | append input now rand =>
          have hstep :
              (((histStep s (HistEvent.append input now rand)).operations.map
                  Operation.id)).Sublist
                (l ++ [DrawingStateManager.mkId input.userId now rand]) := by
            simp only [histStep, DrawingStateManager.addOperation]
            by_cases hc : s.currentIndex < (s.operations.length : Int) - 1
            · simp only [if_pos hc, List.map_append, List.map_take, List.map_cons,
                List.map_nil]
              exact List.Sublist.append ((List.take_sublist _ _).trans h)
                (List.Sublist.refl _)
            · simp only [if_neg hc, List.map_append, List.map_cons, List.map_nil]
              exact List.Sublist.append h (List.Sublist.refl _)
          have := ih (histStep s (HistEvent.append input now rand))
            (l ++ [DrawingStateManager.mkId input.userId now rand]) hstep
          simpa [appendIds, List.append_assoc] using this
      | undoE =>
          have hstep : ((histStep s HistEvent.undoE).operations.map Operation.id).Sublist l := by
            simpa [histStep, undo_preserves_operations] using h
          simpa [appendIds] using ih (histStep s HistEvent.undoE) l hstep
      | redoE =>
          have hstep : ((histStep s HistEvent.redoE).operations.map Operation.id).Sublist l := by
            simpa [histStep, redo_preserves_operations] using h
          simpa [appendIds] using ih (histStep s HistEvent.redoE) l hstep
      | clearE =>
          have hstep : ((histStep s HistEvent.clearE).operations.map Operation.id).Sublist l := by
            simp [histStep, DrawingStateManager.clear]
          simpa [appendIds] using ih (histStep s HistEvent.clearE) l hstep

/-- C8 amended: operations committed via `addOperation` in the same room
carry pairwise distinct ids provided the id strings generated from the
`(userId, Date.now(), Math.random())` draws at the room's appends are
pairwise distinct; identical draws for the same user yield identical ids
(see the counterexample). -/
theorem committed_ids_distinct_of_distinct_draws (roomId : String)
    (evs : List HistEvent) (h : (appendIds evs).Nodup) :
    ((histRun (DrawingStateManager.mk0 roomId) evs).operations.map Operation.id).Nodup := by
  have hsub := histRun_ids_sublist evs (DrawingStateManager.mk0 roomId) []
    (by simp [DrawingStateManager.mk0])
  simp only [List.nil_append] at hsub
  exact h.sublist hsub

/-- Witness for the amended C8: two appends with distinct draws produce a
log whose ids are pairwise distinct. -/
theorem committed_ids_distinct_of_distinct_draws_witness :
    (appendIds [HistEvent.append opIn1 5 7, HistEvent.append opIn2 6 8]).Nodup
    ∧ ((histRun (DrawingStateManager.mk0 "r")
          [HistEvent.append opIn1 5 7, HistEvent.append opIn2 6 8]).operations.map
        Operation.id).Nodup :=
  ⟨by decide,
   committed_ids_distinct_of_distinct_draws "r"
     [HistEvent.append opIn1 5 7, HistEvent.append opIn2 6 8] (by decide)⟩

/-! ### Round-robin color assignment (claim C9) -/

/-- Number of join events in a run. -/
def countJoins : List ServerEvent → Nat
  | [] => 0
  | ServerEvent.join _ _ _ _ :: es => countJoins es + 1
  | _ :: es => countJoins es

theorem getOrCreateRoom_colorIndex (rm : RoomManager) (roomId : String) :
    (rm.getOrCreateRoom roomId).2.colorIndex = rm.colorIndex := by
  cases hget : mapGet rm.rooms roomId <;>
    simp [RoomManager.getOrCreateRoom, hget]

theorem getOrCreateRoom_userColors (rm : RoomManager) (roomId : String) :
    (rm.getOrCreateRoom roomId).2.userColors = rm.userColors := by
  cases hget : mapGet rm.rooms roomId <;>
    simp [RoomManager.getOrCreateRoom, hget]

theorem addUserToRoom_color (rm : RoomManager) (roomId userId : String)
    (userName : Option String) (now : Nat) :
    (rm.addUserToRoom roomId userId userName now).1.color = assignedColor rm := by
  cases hget : mapGet rm.rooms roomId <;>
    simp [RoomManager.addUserToRoom, RoomManager.getOrCreateRoom, hget, assignedColor]

theorem addUserToRoom_colorIndex (rm : RoomManager) (roomId userId : String)
    (userName : Option String) (now : Nat) :
    (rm.addUserToRoom roomId userId userName now).2.colorIndex = rm.colorIndex + 1 := by
  cases hget : mapGet rm.rooms roomId <;>
    simp [RoomManager.addUserToRoom, RoomManager.getOrCreateRoom, hget,
      RoomManager.setRoom]

theorem addUserToRoom_userColors (rm : RoomManager) (roomId userId : String)
    (userName : Option String) (now : Nat) :
    (rm.addUserToRoom roomId userId userName now).2.userColors = rm.userColors := by
  cases hget : mapGet rm.rooms roomId <;>
    simp [RoomManager.addUserToRoom, RoomManager.getOrCreateRoom, hget,
      RoomManager.setRoom]

theorem serverStep_userColors (rm : RoomManager) (e : ServerEvent) :
    (serverStep rm e).userColors = rm.userColors := by
  cases e with
  | join roomId userId userName now =>
      exact addUserToRoom_userColors rm roomId userId userName now
  | leave roomId userId =>
      cases hget : mapGet rm.rooms roomId <;>
        simp [serverStep, RoomManager.removeUserFromRoom, hget,
          RoomManager.deleteRoom, RoomManager.setRoom] <;>
        split <;> rfl
  | drawEnd roomId userId strokeId buf now rand =>
      cases hget : rm.getRoom roomId <;>
        simp [serverStep, handleDrawEnd, hget, RoomManager.setRoom]
  | undoReq roomId =>
      cases hget : rm.getRoom roomId with
      | none => simp [serverStep, handleUndo, hget]
      | some room =>
          cases hres : room.undo.1 <;>
            simp [serverStep, handleUndo, hget, hres, RoomManager.setRoom]
  | redoReq roomId =>
      cases hget : rm.getRoom roomId with
      | none => simp [serverStep, handleRedo, hget]
      | some room =>
          cases hres : room.redo.1 <;>
            simp [serverStep, handleRedo, hget, hres, RoomManager.setRoom]
  | clearReq roomId =>
      cases hget : rm.getRoom roomId <;>
        simp [serverStep, handleClear, hget, RoomManager.setRoom]
  | cursorMove roomId userId c isDrawing =>
      cases hget : mapGet rm.rooms roomId with
      | none => simp [serverStep, RoomManager.updateUserCursor, hget]
      | some room =>
          cases huser : mapGet room.users userId <;>
            simp [serverStep, RoomManager.updateUserCursor, hget, huser,
              RoomManager.setRoom]

theorem serverStep_colorIndex (rm : RoomManager) (e : ServerEvent)
    (h : ∀ roomId userId userName now, e ≠ ServerEvent.join roomId userId userName now) :
    (serverStep rm e).colorIndex = rm.colorIndex := by
  cases e with
  | join roomId userId userName now => exact absurd rfl (h roomId userId userName now)
  | leave roomId userId =>
      cases hget : mapGet rm.rooms roomId <;>
        simp [serverStep, RoomManager.removeUserFromRoom, hget,
          RoomManager.deleteRoom, RoomManager.setRoom] <;>
        split <;> rfl
  | drawEnd roomId userId strokeId buf now rand =>
      cases hget : rm.getRoom roomId <;>
        simp [serverStep, handleDrawEnd, hget, RoomManager.setRoom]
  | undoReq roomId =>
      cases hget : rm.getRoom roomId with
      | none => simp [serverStep, handleUndo, hget]
      | some room =>
          cases hres : room.undo.1 <;>
            simp [serverStep, handleUndo, hget, hres, RoomManager.setRoom]
  | redoReq roomId =>
      cases hget : rm.getRoom roomId with
      | none => simp [serverStep, handleRedo, hget]
      | some room =>
          cases hres : room.redo.1 <;>
            simp [serverStep, handleRedo, hget, hres, RoomManager.setRoom]
  | clearReq roomId =>
      cases hget : rm.getRoom roomId <;>
        simp [serverStep, handleClear, hget, RoomManager.setRoom]
  | cursorMove roomId userId c isDrawing =>
      cases hget : mapGet rm.rooms roomId with
      | none => simp [serverStep, RoomManager.updateUserCursor, hget]
      | some room =>
          cases huser : mapGet room.users userId <;>
            simp [serverStep, RoomManager.updateUserCursor, hget, huser,
              RoomManager.setRoom]

/-- The colors assigned at the joins of a run follow the rotating index,
regardless of which rooms are joined. -/
theorem joinColors_formula (evs : List ServerEvent) (rm : RoomManager) :
    joinColors rm evs = (List.range (countJoins evs)).map
      (fun i => (rm.userColors.get? ((rm.colorIndex + i) % rm.userColors.length)).getD "") := by
  induction evs generalizing rm with
  | nil => simp [joinColors, countJoins]
  | cons e es ih =>
      by_cases hj : ∃ roomId userId userName now,
          e = ServerEvent.join roomId userId userName now
      · obtain ⟨roomId, userId, userName, now, rfl⟩ := hj
        have hci := addUserToRoom_colorIndex rm roomId userId userName now
        have huc := addUserToRoom_userColors rm roomId userId userName now
        simp only [joinColors, countJoins, serverStep]
        rw [ih, hci, huc, List.range_succ_eq_map, List.map_cons, List.map_map]
        simp only [List.cons_append, List.nil_append, List.singleton_append]
        have hhead : assignedColor rm =
            (rm.userColors.get? ((rm.colorIndex + 0) % rm.userColors.length)).getD "" := by
          simp [assignedColor]
        have htail :
            (fun i =>
              (rm.userColors.get? ((rm.colorIndex + 1 + i) % rm.userColors.length)).getD "")
            = ((fun i =>
                (rm.userColors.get? ((rm.colorIndex + i) % rm.userColors.length)).getD "")
                ∘ Nat.succ) := by
          funext i
          simp only [Function.comp]
          have harith : rm.colorIndex + 1 + i = rm.colorIndex + Nat.succ i := by omega
          rw [harith]
        rw [hhead, htail]
      · have hne : ∀ roomId userId userName now,
            e ≠ ServerEvent.join roomId userId userName now := by
          intro roomId userId userName now heq
          exact hj ⟨roomId, userId, userName, now, heq⟩
        have hci := serverStep_colorIndex rm e hne
        have huc := serverStep_userColors rm e
        have hcount : countJoins (e :: es) = countJoins es := by
          cases e with
          | join roomId userId userName now => exact absurd rfl (hne roomId userId userName now)
          | leave _ _ => rfl
          | drawEnd _ _ _ _ _ _ => rfl
          | undoReq _ => rfl
          | redoReq _ => rfl
          | clearReq _ => rfl
          | cursorMove _ _ _ _ => rfl
        have hjc : joinColors rm (e :: es) = joinColors (serverStep rm e) es := by
          cases e with
          | join roomId userId userName now => exact absurd rfl (hne roomId userId userName now)
          | leave _ _ => rfl
          | drawEnd _ _ _ _ _ _ => rfl
          | undoReq _ => rfl
          | redoReq _ => rfl
          | clearReq _ => rfl
          | cursorMove _ _ _ _ => rfl
        rw [hjc, ih, hci, huc, hcount]

/-- Thirteen joins into the single room `r`: enough to wrap the palette. -/
def c9evs : List ServerEvent :=
  [ServerEvent.join "r" "u00" none 0, ServerEvent.join "r" "u01" none 0,
   ServerEvent.join "r" "u02" none 0, ServerEvent.join "r" "u03" none 0,
   ServerEvent.join "r" "u04" none 0, ServerEvent.join "r" "u05" none 0,
   ServerEvent.join "r" "u06" none 0, ServerEvent.join "r" "u07" none 0,
   ServerEvent.join "r" "u08" none 0, ServerEvent.join "r" "u09" none 0,
   ServerEvent.join "r" "u10" none 0, ServerEvent.join "r" "u11" none 0,
   ServerEvent.join "r" "u12" none 0]

/-- The color stored for a participant of a room in the registry. -/
def userColorIn (rm : RoomManager) (roomId userId : String) : Option String :=
  (rm.getRoom roomId).bind (fun room => (room.getUser userId).map UserData.color)

/-- C9: starting from the fresh registry, the k-th participant added
through the registry (counted across all rooms) is assigned the palette
color at index `k mod 12`; the rotation index is process-wide, and after
it wraps two participants of the same room hold the same color (`u00` and
`u12` of room `r` both hold the first palette color). -/
theorem kth_join_color_is_round_robin (evs : List ServerEvent) (k : Nat)
    (h : k < (joinColors RoomManager.mk0 evs).length) :
    (joinColors RoomManager.mk0 evs).get? k = userColorsList.get? (k % 12)
    ∧ userColorIn (serverRun RoomManager.mk0 c9evs) "r" "u00" = some "#FF6B6B"
    ∧ userColorIn (serverRun RoomManager.mk0 c9evs) "r" "u12" = some "#FF6B6B" := by
  refine ⟨?_, by decide, by decide⟩
  rw [joinColors_formula] at h ⊢
  simp only [List.length_map, List.length_range] at h
  rw [List.get?_map, List.get?_range h]
  simp only [RoomManager.mk0, Option.map_some']
  have hlen : userColorsList.length = 12 := by decide
  have hmod : k % 12 < userColorsList.length := by
    rw [hlen]
    omega
  rw [hlen]
  simp only [Nat.zero_add]
  rw [List.get?_eq_get hmod]
  simp

/-- Witness for C9 at `k = 12` of the thirteen-join run. -/
theorem kth_join_color_is_round_robin_witness :
    (joinColors RoomManager.mk0 c9evs).get? 12 = userColorsList.get? (12 % 12)
    ∧ userColorIn (serverRun RoomManager.mk0 c9evs) "r" "u00" = some "#FF6B6B" := by
  have h := kth_join_color_is_round_robin c9evs 12 (by decide)
  exact ⟨h.1, h.2.1⟩

/-! ### Stroke-append payload guard (claim C10) -/

/-- C10: with an open stroke buffer for the given stroke id, a
`draw:append` whose points payload is missing, not an array, or an empty
array leaves the whole buffer map unchanged and emits nothing; a non-empty
array extends the buffer in place and is rebroadcast. -/
theorem drawAppend_requires_nonempty_array (inflight : List (String × StrokeBuffer))
    (strokeId : String) (s : StrokeBuffer)
    (h : mapGet inflight strokeId = some s) :
    handleDrawAppend inflight strokeId PointsPayload.undef = (inflight, [])
    ∧ handleDrawAppend inflight strokeId PointsPayload.nonArray = (inflight, [])
    ∧ handleDrawAppend inflight strokeId (PointsPayload.arr []) = (inflight, [])
    ∧ ∀ ps : List Point, ps ≠ [] →
        handleDrawAppend inflight strokeId (PointsPayload.arr ps)
          = (mapSet inflight strokeId { s with points := s.points ++ ps },
             [ServerMsg.drawAppendMsg strokeId ps]) := by
  refine ⟨by simp [handleDrawAppend, h], by simp [handleDrawAppend, h],
    by simp [handleDrawAppend, h], fun ps hps => ?_⟩
  have hlen : ps.length ≠ 0 := fun hl => hps (List.length_eq_zero.mp hl)
  simp [handleDrawAppend, h, hlen]

/-- A connection holding one open stroke buffer. -/
def bufW : StrokeBuffer :=
  { color := "#333333", lineWidth := 4, tool := "brush", points := [{ x := 0, y := 0 }] }

def inflightW : List (String × StrokeBuffer) := [("sk", bufW)]

/-- Witness for C10: on `inflightW`, a missing payload changes nothing and
emits nothing, while a one-point array extends the buffer and is
rebroadcast. -/
theorem drawAppend_requires_nonempty_array_witness :
    handleDrawAppend inflightW "sk" PointsPayload.undef = (inflightW, [])
    ∧ handleDrawAppend inflightW "sk" (PointsPayload.arr [{ x := 1, y := 1 }])
        = (mapSet inflightW "sk" { bufW with points := bufW.points ++ [{ x := 1, y := 1 }] },
           [ServerMsg.drawAppendMsg "sk" [{ x := 1, y := 1 }]]) := by
  have h := drawAppend_requires_nonempty_array inflightW "sk" bufW (by decide)
  exact ⟨h.1, h.2.2.2 [{ x := 1, y := 1 }] (by decide)⟩

end CollabCanvas
